import Mathlib

/-!
# Verification of the slack-claude-bridge session/approval engine

Shallow embedding of the session-orchestration and interaction-correlation
logic of the `slack-claude-bridge` repository, together with proofs of the
behavioural properties stated in its specification.

The embedding mirrors the TypeScript/JavaScript sources:
* `toolApproval.ts` (pending approval / question correlator),
* `sdkSession.ts` (per-channel SDK session registry),
* the SDK bridge entry point (`updateSlackMessage`, command handlers),
* the tmux variant's `sessionManager.ts` (`stripAnsi`, `cleanTerminalOutput`,
  `updateSlack`).

JavaScript `Map`s are modelled as association lists with JS `Map` semantics
(`set` updates in place preserving insertion order, `delete` removes the
entry); promise resolution callbacks are modelled as emitted effects; a
function that can `throw` takes its fallible collaborator's outcome as an
explicit argument.
-/

namespace Bridge

/-! ## Association-list helpers (JS `Map` semantics) -/

/-- `Map.get`: value stored under `k`, if any. -/
def lookupA {α : Type} (k : String) : List (String × α) → Option α
  | [] => none
  | (k2, v) :: t => if k2 = k then some v else lookupA k t

/-- `Map.set`: update in place if the key exists (JS preserves insertion
order), otherwise append. -/
def setA {α : Type} (k : String) (v : α) : List (String × α) → List (String × α)
  | [] => [(k, v)]
  | (k2, v2) :: t => if k2 = k then (k, v) :: t else (k2, v2) :: setA k v t

/-- `Map.delete`: remove the entry stored under `k`. -/
def eraseA {α : Type} (k : String) : List (String × α) → List (String × α)
  | [] => []
  | (k2, v2) :: t => if k2 = k then t else (k2, v2) :: eraseA k t

/-- Well-formedness of the association-list image of a JS `Map`:
keys are pairwise distinct. -/
def NodupKeys {α : Type} (l : List (String × α)) : Prop :=
  (l.map Prod.fst).Nodup

theorem lookupA_eq_none_of_not_mem {α : Type} (k : String) (l : List (String × α))
    (h : k ∉ l.map Prod.fst) : lookupA k l = none := by
  induction l with
  | nil => rfl
  | cons p t ih =>
    obtain ⟨k2, v2⟩ := p
    simp only [List.map_cons, List.mem_cons] at h
    push_neg at h
    simp only [lookupA]
    rw [if_neg (fun he : k2 = k => h.1 he.symm)]
    exact ih h.2

theorem mem_keys_of_mem_keys_eraseA {α : Type} (k k2 : String) (l : List (String × α))
    (h : k2 ∈ (eraseA k l).map Prod.fst) : k2 ∈ l.map Prod.fst := by
  induction l with
  | nil => exact h
  | cons p t ih =>
    obtain ⟨k3, v3⟩ := p
    by_cases hk : k3 = k
    · simp only [eraseA, if_pos hk] at h
      simp only [List.map_cons, List.mem_cons]
      exact Or.inr h
    · simp only [eraseA, if_neg hk, List.map_cons, List.mem_cons] at h ⊢
      exact h.imp id ih

theorem mem_keys_of_mem_keys_setA {α : Type} (k k2 : String) (v : α)
    (l : List (String × α)) (h : k2 ∈ (setA k v l).map Prod.fst) :
    k2 = k ∨ k2 ∈ l.map Prod.fst := by
  induction l with
  | nil =>
    simp only [setA, List.map_cons, List.map_nil, List.mem_cons,
      List.not_mem_nil, or_false] at h
    exact Or.inl h
  | cons p t ih =>
    obtain ⟨k3, v3⟩ := p
    by_cases hk : k3 = k
    · simp only [setA, if_pos hk, List.map_cons, List.mem_cons] at h
      simp only [List.map_cons, List.mem_cons]
      exact h.imp id Or.inr
    · simp only [setA, if_neg hk, List.map_cons, List.mem_cons] at h
      simp only [List.map_cons, List.mem_cons]
      rcases h with h | h
      · exact Or.inr (Or.inl h)
      · exact (ih h).imp id Or.inr

theorem lookupA_eraseA_self {α : Type} (k : String) (l : List (String × α))
    (h : NodupKeys l) : lookupA k (eraseA k l) = none := by
  induction l with
  | nil => rfl
  | cons p t ih =>
    obtain ⟨k2, v2⟩ := p
    simp only [NodupKeys, List.map_cons, List.nodup_cons] at h
    by_cases hk : k2 = k
    · subst hk
      simp only [eraseA, if_pos rfl]
      exact lookupA_eq_none_of_not_mem k2 t h.1
    · simp only [eraseA, if_neg hk, lookupA, if_neg hk]
      exact ih h.2

theorem nodupKeys_eraseA {α : Type} (k : String) (l : List (String × α))
    (h : NodupKeys l) : NodupKeys (eraseA k l) := by
  induction l with
  | nil => exact h
  | cons p t ih =>
    obtain ⟨k2, v2⟩ := p
    simp only [NodupKeys, List.map_cons, List.nodup_cons] at h
    by_cases hk : k2 = k
    · simpa only [eraseA, if_pos hk] using h.2
    · simp only [eraseA, if_neg hk, NodupKeys, List.map_cons, List.nodup_cons]
      exact ⟨fun hm => h.1 (mem_keys_of_mem_keys_eraseA k k2 t hm), ih h.2⟩

theorem nodupKeys_setA {α : Type} (k : String) (v : α) (l : List (String × α))
    (h : NodupKeys l) : NodupKeys (setA k v l) := by
  induction l with
  | nil => simp [setA, NodupKeys]
  | cons p t ih =>
    obtain ⟨k2, v2⟩ := p
    simp only [NodupKeys, List.map_cons, List.nodup_cons] at h
    by_cases hk : k2 = k
    · subst hk
      simp only [setA, if_true, NodupKeys, List.map_cons, List.nodup_cons]
      exact h
    · simp only [setA, if_neg hk, NodupKeys, List.map_cons, List.nodup_cons]
      refine ⟨fun hm => ?_, ih h.2⟩
      rcases mem_keys_of_mem_keys_setA k k2 v t hm with he | hm2
      · exact absurd he hk
      · exact h.1 hm2

/-! ## Interaction correlator (`toolApproval.ts`)

The correlator stores a `PendingApproval` per outstanding tool-approval
request and a `PendingQuestion` per outstanding user question.  The
`resolve` callback stored in each entry deletes the entry and resolves the
waiting promise; we model invoking it as removing the entry and emitting a
resolution effect. -/

/-- The decision domain of `ToolApprovalResult`:
`boolean | { denied: true; feedback?: string }`. -/
inductive ApprovalResult
  | allow
  | deny
  | denyWithFeedback (feedback : Option String)
  deriving DecidableEq, Repr

/-- `PendingApproval` of `toolApproval.ts` (minus the resolution callback,
which is modelled by effects). -/
structure ApprovalEntry where
  toolName : String
  input : String
  channelId : String
  messageTs : String
  userId : String
  deriving DecidableEq, Repr

/-- An option of an `AskUserQuestion` question as surfaced to Slack. -/
structure QOption where
  label : String
  value : String
  deriving DecidableEq, Repr

/-- `PendingQuestion` of `toolApproval.ts` (minus the resolution callback). -/
structure QuestionEntry where
  question : String
  options : List QOption
  channelId : String
  messageTs : String
  userId : String
  deriving DecidableEq, Repr

/-- The two module-level maps of `toolApproval.ts`:
`pendingApprovals` and `pendingQuestions`, keyed by request id. -/
structure CorrelatorState where
  pendingApprovals : List (String × ApprovalEntry)
  pendingQuestions : List (String × QuestionEntry)
  deriving DecidableEq, Repr

/-- A resolution callback invocation (the promise a blocked query waits on
being fulfilled). -/
inductive CorrEffect
  | approvalResolved (requestId : String) (decision : ApprovalResult)
  | questionResolved (requestId : String) (answer : String)
  deriving DecidableEq, Repr

/-- Outcome of the Slack postMessage call delivering a request. -/
inductive DeliveryOutcome
  | posted (ts : String)
  | failed
  deriving DecidableEq, Repr

/-- Result of `requestApproval`: either the request is registered pending an
external decision, or it resolved immediately. -/
inductive ApprovalRequestResult
  | pending
  | immediate (decision : ApprovalResult)
  deriving DecidableEq, Repr

/-- `requestApproval` (`toolApproval.ts`): posts the approval message with
buttons; if posting succeeds, registers the pending entry and suspends; if
posting throws, the `catch` returns `false` (a plain denial). -/
def requestApproval (st : CorrelatorState) (channelId userId requestId toolName input : String)
    (post : DeliveryOutcome) : ApprovalRequestResult × CorrelatorState :=
  match post with
  | .posted ts =>
    (.pending,
      { st with
        pendingApprovals :=
          setA requestId ⟨toolName, input, channelId, ts, userId⟩ st.pendingApprovals })
  | .failed => (.immediate .deny, st)

/-- `handleApprovalAction` (`toolApproval.ts`): looks up the pending entry;
if present, invokes its callback (which deletes the entry first, then
resolves) and returns `true`; otherwise returns `false` with no effect. -/
def handleApprovalAction (st : CorrelatorState) (requestId : String)
    (decision : ApprovalResult) : Bool × CorrelatorState × List CorrEffect :=
  match lookupA requestId st.pendingApprovals with
  | some _ =>
    (true,
      { st with pendingApprovals := eraseA requestId st.pendingApprovals },
      [.approvalResolved requestId decision])
  | none => (false, st, [])

/-- Result of `requestUserQuestion`: registered pending, or resolved
immediately with an answer. -/
inductive QuestionRequestResult
  | pending
  | immediate (answer : String)
  deriving DecidableEq, Repr

/-- `requestUserQuestion` (`toolApproval.ts`): posts the question with answer
buttons; on success registers the pending entry and suspends; if posting
throws, the `catch` returns `options[0]?.value || ''`. -/
def requestUserQuestion (st : CorrelatorState) (channelId userId requestId question : String)
    (options : List QOption) (post : DeliveryOutcome) :
    QuestionRequestResult × CorrelatorState :=
  match post with
  | .posted ts =>
    (.pending,
      { st with
        pendingQuestions :=
          setA requestId ⟨question, options, channelId, ts, userId⟩ st.pendingQuestions })
  | .failed =>
    (.immediate (match options.head? with
      | some o => if o.value = "" then "" else o.value
      | none => ""), st)

/-- `handleQuestionAnswer` (`toolApproval.ts`): analogous to
`handleApprovalAction` on the `pendingQuestions` map. -/
def handleQuestionAnswer (st : CorrelatorState) (requestId answer : String) :
    Bool × CorrelatorState × List CorrEffect :=
  match lookupA requestId st.pendingQuestions with
  | some _ =>
    (true,
      { st with pendingQuestions := eraseA requestId st.pendingQuestions },
      [.questionResolved requestId answer])
  | none => (false, st, [])

/-- The loop body of `cancelUserApprovals`: walks the `pendingApprovals`
entries in insertion order; every entry of the channel is resolved with
`false` (deny) and deleted. -/
def cancelApprovalsList (channelId : String) :
    List (String × ApprovalEntry) → List (String × ApprovalEntry) × List CorrEffect
  | [] => ([], [])
  | (id, e) :: t =>
    let r := cancelApprovalsList channelId t
    if e.channelId = channelId then (r.1, .approvalResolved id .deny :: r.2)
    else ((id, e) :: r.1, r.2)

/-- `cancelUserApprovals` (`toolApproval.ts`): bulk cancellation for one
channel, invoked by the `abort` and `exit` command handlers.  Note: it
iterates only over `pendingApprovals`; the `pendingQuestions` map is not
touched by it (nor by any other bulk operation in the source). -/
def cancelUserApprovals (st : CorrelatorState) (channelId : String) :
    CorrelatorState × List CorrEffect :=
  let r := cancelApprovalsList channelId st.pendingApprovals
  ({ st with pendingApprovals := r.1 }, r.2)

theorem cancelApprovalsList_eq (channelId : String)
    (l : List (String × ApprovalEntry)) :
    cancelApprovalsList channelId l =
      (l.filter (fun p => p.2.channelId ≠ channelId),
       (l.filter (fun p => p.2.channelId = channelId)).map
         (fun p => .approvalResolved p.1 .deny)) := by
  induction l with
  | nil => rfl
  | cons p t ih =>
    obtain ⟨id, e⟩ := p
    by_cases hc : e.channelId = channelId
    · simp [cancelApprovalsList, ih, hc, List.filter]
    · simp [cancelApprovalsList, ih, hc, List.filter]

/-! ### Claim theorems about the correlator -/

/-- C2 (amended): `cancelUserApprovals` resolves every pending *tool-approval*
request of the channel with the default denial and removes it, leaving
pending approvals of every other channel untouched (in order); the
`pendingQuestions` map is left entirely untouched — pending user-question
requests of the channel are *not* cancelled. -/
theorem cancelUserApprovals_cancels_channel_approvals
    (st : CorrelatorState) (channelId : String) :
    (cancelUserApprovals st channelId).1.pendingApprovals =
        st.pendingApprovals.filter (fun p => p.2.channelId ≠ channelId) ∧
    (cancelUserApprovals st channelId).2 =
        (st.pendingApprovals.filter (fun p => p.2.channelId = channelId)).map
          (fun p => .approvalResolved p.1 .deny) ∧
    (cancelUserApprovals st channelId).1.pendingQuestions = st.pendingQuestions := by
  refine ⟨?_, ?_, rfl⟩ <;> simp [cancelUserApprovals, cancelApprovalsList_eq]

/-- C2 (counterexample): the claim says the bulk cancellation invoked on
abort/close resolves and removes pending *user-question* interactions of the
channel as well.  It does not: with a single pending question for channel
`CH1` and no pending approvals, `cancelUserApprovals` for `CH1` leaves the
question pending and resolves nothing. -/
theorem cancelUserApprovals_ignores_questions_cex :
    (cancelUserApprovals
        ⟨[], [("q-1", ⟨"Which?", [⟨"A", "A"⟩], "CH1", "111.222", "U1"⟩)]⟩
        "CH1").1.pendingQuestions
      = [("q-1", ⟨"Which?", [⟨"A", "A"⟩], "CH1", "111.222", "U1"⟩)] ∧
    (cancelUserApprovals
        ⟨[], [("q-1", ⟨"Which?", [⟨"A", "A"⟩], "CH1", "111.222", "U1"⟩)]⟩
        "CH1").2 = [] := ⟨rfl, rfl⟩

/-- C3: resolving a decision for an unknown or already-resolved request id
(`handleApprovalAction` / `handleQuestionAnswer`) returns `false` with no
side effect on the pending maps, and resolving the same id twice invokes the
stored resolution callback at most once, because the entry is removed the
instant it resolves. -/
theorem resolve_unknown_id_noop_and_at_most_once (st : CorrelatorState)
    (id answer answer2 : String) (d1 d2 : ApprovalResult)
    (hA : NodupKeys st.pendingApprovals) (hQ : NodupKeys st.pendingQuestions) :
    (lookupA id st.pendingApprovals = none →
      handleApprovalAction st id d1 = (false, st, [])) ∧
    (lookupA id st.pendingQuestions = none →
      handleQuestionAnswer st id answer = (false, st, [])) ∧
    ((handleApprovalAction st id d1).2.2 ++
      (handleApprovalAction (handleApprovalAction st id d1).2.1 id d2).2.2).length ≤ 1 ∧
    ((handleApprovalAction st id d1).1 = true →
      (handleApprovalAction (handleApprovalAction st id d1).2.1 id d2).1 = false) ∧
    ((handleQuestionAnswer st id answer).2.2 ++
      (handleQuestionAnswer (handleQuestionAnswer st id answer).2.1 id answer2).2.2).length ≤ 1 ∧
    ((handleQuestionAnswer st id answer).1 = true →
      (handleQuestionAnswer (handleQuestionAnswer st id answer).2.1 id answer2).1 = false) := by
  have hA2 : ∀ d d2 : ApprovalResult,
      ((handleApprovalAction st id d).2.2 ++
        (handleApprovalAction (handleApprovalAction st id d).2.1 id d2).2.2).length ≤ 1 ∧
      ((handleApprovalAction st id d).1 = true →
        (handleApprovalAction (handleApprovalAction st id d).2.1 id d2).1 = false) := by
    intro d d2
    rcases h1 : lookupA id st.pendingApprovals with _ | e
    · simp [handleApprovalAction, h1]
    · have h2 : lookupA id (eraseA id st.pendingApprovals) = none :=
        lookupA_eraseA_self id st.pendingApprovals hA
      simp [handleApprovalAction, h1, h2]
  have hQ2 : ∀ a a2 : String,
      ((handleQuestionAnswer st id a).2.2 ++
        (handleQuestionAnswer (handleQuestionAnswer st id a).2.1 id a2).2.2).length ≤ 1 ∧
      ((handleQuestionAnswer st id a).1 = true →
        (handleQuestionAnswer (handleQuestionAnswer st id a).2.1 id a2).1 = false) := by
    intro a a2
    rcases h1 : lookupA id st.pendingQuestions with _ | e
    · simp [handleQuestionAnswer, h1]
    · have h2 : lookupA id (eraseA id st.pendingQuestions) = none :=
        lookupA_eraseA_self id st.pendingQuestions hQ
      simp [handleQuestionAnswer, h1, h2]
  exact ⟨fun h1 => by simp [handleApprovalAction, h1],
    fun h1 => by simp [handleQuestionAnswer, h1],
    (hA2 d1 d2).1, (hA2 d1 d2).2, (hQ2 answer answer2).1, (hQ2 answer answer2).2⟩

/-- C3 (witness): on a correlator with one pending approval under id `r1`,
resolving unknown id `zz` returns `false` and changes nothing. -/
theorem resolve_unknown_id_noop_and_at_most_once_witness :
    NodupKeys [("r1", (⟨"Bash", "ls", "CH1", "1.2", "U1"⟩ : ApprovalEntry))] ∧
    handleApprovalAction
        ⟨[("r1", ⟨"Bash", "ls", "CH1", "1.2", "U1"⟩)], []⟩ "zz" .deny
      = (false, ⟨[("r1", ⟨"Bash", "ls", "CH1", "1.2", "U1"⟩)], []⟩, []) :=
  ⟨by simp [NodupKeys],
    (resolve_unknown_id_noop_and_at_most_once
        ⟨[("r1", ⟨"Bash", "ls", "CH1", "1.2", "U1"⟩)], []⟩ "zz" "a" "b" .deny .deny
        (by simp [NodupKeys]) (by simp [NodupKeys])).1 (by decide)⟩

/-- C8: if the question message cannot be posted to Slack at all and the
option list is non-empty, `requestUserQuestion` resolves immediately to the
first enumerated option's value instead of registering a pending decision. -/
theorem requestUserQuestion_failure_first_option (st : CorrelatorState)
    (channelId userId requestId question : String) (options : List QOption)
    (h : options ≠ []) :
    requestUserQuestion st channelId userId requestId question options .failed
      = (.immediate (options.head h).value, st) := by
  cases options with
  | nil => exact absurd rfl h
  | cons o t =>
    show (QuestionRequestResult.immediate (if o.value = "" then "" else o.value), st)
        = (.immediate o.value, st)
    by_cases hv : o.value = ""
    · rw [if_pos hv, hv]
    · rw [if_neg hv]

/-- C8 (witness): with options `yes`/`no` and a failing post, the result is
an immediate `yes` and the state is unchanged. -/
theorem requestUserQuestion_failure_first_option_witness :
    ([⟨"Yes", "yes"⟩, ⟨"No", "no"⟩] : List QOption) ≠ [] ∧
    requestUserQuestion ⟨[], []⟩ "CH1" "U1" "r9" "Continue?"
        [⟨"Yes", "yes"⟩, ⟨"No", "no"⟩] .failed
      = (.immediate "yes", ⟨[], []⟩) :=
  ⟨by decide,
    requestUserQuestion_failure_first_option ⟨[], []⟩ "CH1" "U1" "r9" "Continue?"
      [⟨"Yes", "yes"⟩, ⟨"No", "no"⟩] (by decide)⟩

/-- C10: if the approval message cannot be posted to Slack at all,
`requestApproval` resolves immediately to a plain denial (`false`) — it
neither registers a pending decision (which would block) nor propagates the
failure, and the correlator state is unchanged. -/
theorem requestApproval_failure_denies (st : CorrelatorState)
    (channelId userId requestId toolName input : String) :
    requestApproval st channelId userId requestId toolName input .failed
      = (.immediate .deny, st) := rfl

/-! ## SDK session registry (`sdkSession.ts`)

One `UserSession` per channel key, stored in a module-level `Map`.  Abort
controllers and query instances are identified by numeric tokens; calling
`abort()` / `close()` / `interrupt()` on them is modelled as an emitted
effect.  The prefix of `sendMessage` that runs synchronously before the
query stream is awaited — cancel the old query, install a fresh abort
controller, mark the session active — is modelled by `sendMessageStart`;
the effect `markActive` records the instant `session.isActive = true` is
assigned, so effect order captures statement order. -/

inductive PermissionMode
  | default
  | acceptEdits
  | bypassPermissions
  deriving DecidableEq, Repr

/-- Cumulative token-usage counters of a session. -/
structure TokenUsage where
  inputTokens : Nat
  outputTokens : Nat
  cacheReadTokens : Nat
  cacheWriteTokens : Nat
  deriving DecidableEq, Repr

/-- `UserSession` of `sdkSession.ts`. -/
structure UserSession where
  sessionId : Option String
  abortController : Option Nat
  queryInstance : Option Nat
  lastActivity : Nat
  isActive : Bool
  permissionMode : PermissionMode
  tokenUsage : TokenUsage
  deriving DecidableEq, Repr

/-- The module-level maps of `sdkSession.ts`: `sessions` and
`permissionModes`, both keyed by the channel id. -/
structure SessionsState where
  sessions : List (String × UserSession)
  permissionModes : List (String × PermissionMode)
  deriving DecidableEq, Repr

/-- Control-primitive invocations on the SDK query objects. -/
inductive SessEffect
  | abortSignal (ctrl : Nat)
  | closeQuery (q : Nat)
  | interruptQuery (q : Nat)
  | markActive (key : String) (ctrl : Nat)
  deriving DecidableEq, Repr

/-- `getUserPermissionMode`: `permissionModes.get(sessionKey) || 'default'`. -/
def getUserPermissionMode (st : SessionsState) (key : String) : PermissionMode :=
  (lookupA key st.permissionModes).getD .default

/-- `getOrCreateSession` (`sdkSession.ts`): returns the stored session, or
inserts a fresh inactive one with zeroed usage counters. -/
def getOrCreateSession (st : SessionsState) (key : String) (now : Nat) :
    UserSession × SessionsState :=
  match lookupA key st.sessions with
  | some s => (s, st)
  | none =>
    let s : UserSession :=
      { sessionId := none, abortController := none, queryInstance := none,
        lastActivity := now, isActive := false,
        permissionMode := getUserPermissionMode st key,
        tokenUsage := ⟨0, 0, 0, 0⟩ }
    (s, { st with sessions := setA key s st.sessions })

/-- The synchronous prefix of `sendMessage` (`sdkSession.ts`): if the
session is active and holds an abort controller, `abort()` it first; then
install a fresh controller (`newCtrl`), set `isActive = true` and refresh
`lastActivity`. -/
def sendMessageStart (st : SessionsState) (key : String) (newCtrl : Nat) (now : Nat) :
    SessionsState × List SessEffect :=
  let r := getOrCreateSession st key now
  let s := r.1
  let abortEffects : List SessEffect :=
    match s.isActive, s.abortController with
    | true, some c => [.abortSignal c]
    | _, _ => []
  let s2 : UserSession :=
    { s with abortController := some newCtrl, isActive := true, lastActivity := now }
  ({ r.2 with sessions := setA key s2 r.2.sessions },
    abortEffects ++ [.markActive key newCtrl])

/-- `interruptSession` (`sdkSession.ts`): soft stop — interrupt the query
and signal the abort controller, clear the active flag, but keep the
session (and its `sessionId`) registered. -/
def interruptSession (st : SessionsState) (key : String) :
    Bool × SessionsState × List SessEffect :=
  match lookupA key st.sessions with
  | some s =>
    if s.isActive then
      let e1 : List SessEffect :=
        match s.queryInstance with
        | some q => [.interruptQuery q]
        | none => []
      let e2 : List SessEffect :=
        match s.abortController with
        | some c => [.abortSignal c]
        | none => []
      (true,
        { st with
          sessions := setA key { s with isActive := false, queryInstance := none } st.sessions },
        e1 ++ e2)
    else (false, st, [])
  | none => (false, st, [])

/-- `closeSession` (`sdkSession.ts`): hard stop — close the query if one is
stored, abort if active, clear the active flag, drop the query instance and
discard the resumable `sessionId`.  The entry itself stays in the map
(removal is `clearSession`). -/
def closeSession (st : SessionsState) (key : String) :
    Bool × SessionsState × List SessEffect :=
  match lookupA key st.sessions with
  | some s =>
    let e1 : List SessEffect :=
      match s.queryInstance with
      | some q => [.closeQuery q]
      | none => []
    let e2 : List SessEffect :=
      match s.abortController, s.isActive with
      | some c, true => [.abortSignal c]
      | _, _ => []
    (true,
      { st with
        sessions := setA key
          { s with isActive := false, queryInstance := none, sessionId := none }
          st.sessions },
      e1 ++ e2)
  | none => (false, st, [])

/-- `clearSession` (`sdkSession.ts`): close the query if stored, abort if
active, and delete the session entry from the map entirely. -/
def clearSession (st : SessionsState) (key : String) :
    SessionsState × List SessEffect :=
  match lookupA key st.sessions with
  | some s =>
    let e1 : List SessEffect :=
      match s.queryInstance with
      | some q => [.closeQuery q]
      | none => []
    let e2 : List SessEffect :=
      match s.abortController, s.isActive with
      | some c, true => [.abortSignal c]
      | _, _ => []
    ({ st with sessions := eraseA key st.sessions }, e1 ++ e2)
  | none => (st, [])

/-- Number of sessions stored under `key` that are marked active. -/
def countActive (l : List (String × UserSession)) (key : String) : Nat :=
  (l.filter (fun p => p.1 = key ∧ p.2.isActive)).length

theorem countActive_le_one_of_nodup (l : List (String × UserSession)) (key : String)
    (h : NodupKeys l) : countActive l key ≤ 1 := by
  induction l with
  | nil => simp [countActive]
  | cons p t ih =>
    obtain ⟨k2, s⟩ := p
    simp only [NodupKeys, List.map_cons, List.nodup_cons] at h
    by_cases hk : k2 = key ∧ s.isActive = true
    · -- the head is counted; no other entry shares its key
      have hz : countActive t key = 0 := by
        simp only [countActive, List.length_eq_zero, List.filter_eq_nil_iff]
        intro q hq
        simp only [decide_eq_true_eq]
        rintro ⟨hq1, -⟩
        exact h.1 (by rw [hk.1, ← hq1]; exact List.mem_map_of_mem Prod.fst hq)
      simp only [countActive, List.filter_cons]
      rw [if_pos (by simpa using hk)]
      simp only [countActive] at hz
      simp only [List.length_cons]
      omega
    · simp only [countActive, List.filter_cons]
      rw [if_neg (by simpa using hk)]
      exact ih h.2

theorem lookupA_setA_self {α : Type} (k : String) (v : α) (l : List (String × α)) :
    lookupA k (setA k v l) = some v := by
  induction l with
  | nil => simp [setA, lookupA]
  | cons p t ih =>
    obtain ⟨k2, v2⟩ := p
    by_cases hk : k2 = k
    · simp [setA, hk, lookupA]
    · simp only [setA, if_neg hk, lookupA, if_neg hk]
      exact ih

/-! ### Claim theorems about the session registry -/

/-- C1: starting a new query while one is still marked active for the
channel's session first signals `abort()` on the old query's controller and
only then marks the new query active (the effect trace is exactly
`[abortSignal old, markActive new]` — the cancellation is a signal, nothing
waits for the old query to unwind); and since sessions are stored in a map
with one `isActive` flag per channel key, at most one query is marked active
per key both before and after. -/
theorem sendMessage_cancels_then_activates (st : SessionsState) (key : String)
    (newCtrl now : Nat) (s : UserSession) (c : Nat)
    (hnd : NodupKeys st.sessions)
    (hs : lookupA key st.sessions = some s)
    (hact : s.isActive = true) (hc : s.abortController = some c) :
    (sendMessageStart st key newCtrl now).2
        = [.abortSignal c, .markActive key newCtrl] ∧
    lookupA key (sendMessageStart st key newCtrl now).1.sessions
        = some { s with abortController := some newCtrl, isActive := true,
                        lastActivity := now } ∧
    (∀ k, countActive st.sessions k ≤ 1) ∧
    (∀ k, countActive (sendMessageStart st key newCtrl now).1.sessions k ≤ 1) := by
  have hget : getOrCreateSession st key now = (s, st) := by
    simp [getOrCreateSession, hs]
  refine ⟨?_, ?_, ?_, ?_⟩
  · simp [sendMessageStart, hget, hact, hc]
  · simp only [sendMessageStart, hget]
    exact lookupA_setA_self key _ st.sessions
  · exact fun k => countActive_le_one_of_nodup st.sessions k hnd
  · intro k
    simp only [sendMessageStart, hget]
    exact countActive_le_one_of_nodup _ k (nodupKeys_setA key _ st.sessions hnd)

/-- C1 (witness): a concrete channel `CH1` whose session is active with
abort controller `7`; a new `sendMessage` with fresh controller `8` emits
the abort of `7` strictly before marking the new query active. -/
theorem sendMessage_cancels_then_activates_witness :
    lookupA "CH1"
        [("CH1", (⟨some "sid", some 7, some 3, 0, true, .default, ⟨0, 0, 0, 0⟩⟩ : UserSession))]
      = some ⟨some "sid", some 7, some 3, 0, true, .default, ⟨0, 0, 0, 0⟩⟩ ∧
    (sendMessageStart
        ⟨[("CH1", ⟨some "sid", some 7, some 3, 0, true, .default, ⟨0, 0, 0, 0⟩⟩)], []⟩
        "CH1" 8 100).2
      = [.abortSignal 7, .markActive "CH1" 8] :=
  ⟨by decide,
    (sendMessage_cancels_then_activates
      ⟨[("CH1", ⟨some "sid", some 7, some 3, 0, true, .default, ⟨0, 0, 0, 0⟩⟩)], []⟩
      "CH1" 8 100 ⟨some "sid", some 7, some 3, 0, true, .default, ⟨0, 0, 0, 0⟩⟩ 7
      (by simp [NodupKeys]) (by decide) rfl rfl).1⟩

/-! ## Bridge-level state and the `exit` command handler

The SDK entry point keeps, besides the two modules above, a per-channel
`activeMessages` map.  The `exit` handler runs, in order:
`closeSession(channelId)`, `clearSession(channelId)`,
`activeMessages.delete(channelId)`, `cancelUserApprovals(channelId)`. -/

/-- An entry of the `activeMessages` map of the SDK entry point. -/
structure ActiveMessage where
  ts : String
  channelId : String
  content : String
  lastUpdate : Nat
  deriving DecidableEq, Repr

/-- Combined in-memory state of the SDK bridge. -/
structure BridgeState where
  sess : SessionsState
  corr : CorrelatorState
  activeMessages : List (String × ActiveMessage)
  deriving DecidableEq, Repr

/-- The `exit` command handler of the SDK entry point. -/
def exitCommand (st : BridgeState) (channelId : String) :
    BridgeState × List SessEffect × List CorrEffect :=
  let r1 := closeSession st.sess channelId
  let r2 := clearSession r1.2.1 channelId
  let am := eraseA channelId st.activeMessages
  let r3 := cancelUserApprovals st.corr channelId
  (⟨r2.1, r3.1, am⟩, r1.2.2 ++ r2.2, r3.2)

/-- C5 (amended): the `exit` path aborts the in-flight query if one is
active, removes the session entry (and with it the stored resumable
session identifier) from the registry, and cancels all of the channel's
pending *tool-approval* interactions with a denial; pending user-question
interactions are not cancelled. -/
theorem exitCommand_closes_and_cancels (st : BridgeState) (channelId : String)
    (s : UserSession)
    (hnd : NodupKeys st.sess.sessions)
    (hs : lookupA channelId st.sess.sessions = some s) :
    lookupA channelId (exitCommand st channelId).1.sess.sessions = none ∧
    (∀ c, s.isActive = true → s.abortController = some c →
      SessEffect.abortSignal c ∈ (exitCommand st channelId).2.1) ∧
    (exitCommand st channelId).1.corr.pendingApprovals =
        st.corr.pendingApprovals.filter (fun p => p.2.channelId ≠ channelId) ∧
    (exitCommand st channelId).2.2 =
        (st.corr.pendingApprovals.filter (fun p => p.2.channelId = channelId)).map
          (fun p => .approvalResolved p.1 .deny) ∧
    (exitCommand st channelId).1.corr.pendingQuestions = st.corr.pendingQuestions := by
  have hclose : closeSession st.sess channelId =
      (true,
        { st.sess with
          sessions := setA channelId
            { s with isActive := false, queryInstance := none, sessionId := none }
            st.sess.sessions },
        (match s.queryInstance with
          | some q => [SessEffect.closeQuery q]
          | none => []) ++
        (match s.abortController, s.isActive with
          | some c, true => [SessEffect.abortSignal c]
          | _, _ => [])) := by
    simp [closeSession, hs]
  have hlook2 : lookupA channelId (closeSession st.sess channelId).2.1.sessions =
      some { s with isActive := false, queryInstance := none, sessionId := none } := by
    rw [hclose]
    exact lookupA_setA_self channelId _ st.sess.sessions
  refine ⟨?_, ?_, ?_, ?_, rfl⟩
  · show lookupA channelId (clearSession (closeSession st.sess channelId).2.1 channelId).1.sessions
        = none
    simp only [clearSession, hlook2]
    rw [hclose]
    exact lookupA_eraseA_self channelId _ (nodupKeys_setA channelId _ st.sess.sessions hnd)
  · intro c hact hc
    show SessEffect.abortSignal c ∈
        (closeSession st.sess channelId).2.2 ++ (clearSession (closeSession st.sess channelId).2.1 channelId).2
    rw [hclose]
    simp [hact, hc]
  · exact (cancelUserApprovals_cancels_channel_approvals st.corr channelId).1
  · exact (cancelUserApprovals_cancels_channel_approvals st.corr channelId).2.1

/-- C5 (counterexample): the claim says closing via `exit` cancels *all* of
the channel's pending interactions with a denial.  With one pending
user-question for channel `CH1`, the whole `exit` pipeline leaves the
question pending and resolves nothing on the correlator. -/
theorem exitCommand_leaves_questions_cex :
    (exitCommand
        ⟨⟨[("CH1", ⟨some "sid", some 7, some 3, 0, true, .default, ⟨0, 0, 0, 0⟩⟩)], []⟩,
         ⟨[], [("q-7", ⟨"Pick one", [⟨"A", "A"⟩], "CH1", "5.5", "U1"⟩)]⟩, []⟩
        "CH1").1.corr.pendingQuestions
      = [("q-7", ⟨"Pick one", [⟨"A", "A"⟩], "CH1", "5.5", "U1"⟩)] ∧
    (exitCommand
        ⟨⟨[("CH1", ⟨some "sid", some 7, some 3, 0, true, .default, ⟨0, 0, 0, 0⟩⟩)], []⟩,
         ⟨[], [("q-7", ⟨"Pick one", [⟨"A", "A"⟩], "CH1", "5.5", "U1"⟩)]⟩, []⟩
        "CH1").2.2 = [] := ⟨rfl, rfl⟩

/-- C5 (witness): concrete active session for `CH1` with one pending
approval: after `exit`, the session entry is gone and the approval was
resolved with a denial. -/
theorem exitCommand_closes_and_cancels_witness :
    lookupA "CH1"
        [("CH1", (⟨some "sid", some 7, some 3, 0, true, .default, ⟨0, 0, 0, 0⟩⟩ : UserSession))]
      = some ⟨some "sid", some 7, some 3, 0, true, .default, ⟨0, 0, 0, 0⟩⟩ ∧
    lookupA "CH1"
      (exitCommand
        ⟨⟨[("CH1", ⟨some "sid", some 7, some 3, 0, true, .default, ⟨0, 0, 0, 0⟩⟩)], []⟩,
         ⟨[("a-1", ⟨"Bash", "rm x", "CH1", "2.2", "U1"⟩)], []⟩, []⟩
        "CH1").1.sess.sessions = none ∧
    (exitCommand
        ⟨⟨[("CH1", ⟨some "sid", some 7, some 3, 0, true, .default, ⟨0, 0, 0, 0⟩⟩)], []⟩,
         ⟨[("a-1", ⟨"Bash", "rm x", "CH1", "2.2", "U1"⟩)], []⟩, []⟩
        "CH1").2.2 = [.approvalResolved "a-1" .deny] := by
  have h := exitCommand_closes_and_cancels
    ⟨⟨[("CH1", ⟨some "sid", some 7, some 3, 0, true, .default, ⟨0, 0, 0, 0⟩⟩)], []⟩,
     ⟨[("a-1", ⟨"Bash", "rm x", "CH1", "2.2", "U1"⟩)], []⟩, []⟩
    "CH1" ⟨some "sid", some 7, some 3, 0, true, .default, ⟨0, 0, 0, 0⟩⟩
    (by simp [NodupKeys]) (by decide)
  exact ⟨by decide, h.1, by rw [h.2.2.2.1]; decide⟩

/-! ## SDK output renderer (`updateSlackMessage` in the SDK entry point)

`updateSlackMessage` decides, from the accumulated content and the current
target message (if any), whether to upload the content as a file, create a
new message, or update the target in place. -/

/-- Slack block text hard limit (`SLACK_TEXT_LIMIT` in the source). -/
def SLACK_TEXT_LIMIT : Nat := 3000

/-- The action taken by `updateSlackMessage`. -/
inductive SlackMsgAction
  | uploadAsFile (summary : String)
  | createNew (content : String)
  | updateMsg (ts : String) (content : String)
  deriving DecidableEq, Repr

/-- Decision logic of `updateSlackMessage` (SDK entry point): if
`content.length > SLACK_TEXT_LIMIT`, delete the target (if any), upload the
full content as a file and post a short summary (`content.slice(0, 500)`
plus an upload marker); otherwise create a new message when there is no
target, else update the target in place. -/
def updateSlackMessage (content : String) (messageTs : Option String) : SlackMsgAction :=
  if content.length > SLACK_TEXT_LIMIT then
    .uploadAsFile (content.take 500 ++ "...\n\n_(Full response uploaded as file)_")
  else
    match messageTs with
    | none => .createNew content
    | some ts => .updateMsg ts content

/-- C4 (amended): content of length *strictly above* the hard limit always
triggers upload-as-file — regardless of whether a target exists — with the
on-surface message reduced to the first 500 characters plus an upload
marker; content of length *at most* the hard limit (including exactly 3000)
never does. -/
theorem updateSlackMessage_upload_iff_above_limit (content : String)
    (messageTs : Option String) :
    ((∃ s, updateSlackMessage content messageTs = .uploadAsFile s) ↔
      content.length > SLACK_TEXT_LIMIT) ∧
    (content.length > SLACK_TEXT_LIMIT →
      updateSlackMessage content messageTs
        = .uploadAsFile (content.take 500 ++ "...\n\n_(Full response uploaded as file)_")) := by
  by_cases h : content.length > SLACK_TEXT_LIMIT
  · refine ⟨⟨fun _ => h,
      fun _ => ⟨content.take 500 ++ "...\n\n_(Full response uploaded as file)_", ?_⟩⟩,
      fun _ => ?_⟩ <;> simp [updateSlackMessage, h]
  · refine ⟨⟨?_, fun hc => absurd hc h⟩, fun hc => absurd hc h⟩
    rintro ⟨s, hs⟩
    cases messageTs <;> simp [updateSlackMessage, h] at hs

/-- C4 (counterexample): content of length exactly 3000 is "at the hard
limit", yet `updateSlackMessage` does not upload it as a file — with no
target it creates a new message instead (the source compares with strict
`>`). -/
theorem updateSlackMessage_at_limit_cex :
    (String.mk (List.replicate 3000 'a')).length = SLACK_TEXT_LIMIT ∧
    updateSlackMessage (String.mk (List.replicate 3000 'a')) none
      = .createNew (String.mk (List.replicate 3000 'a')) := by
  have hlen : (String.mk (List.replicate 3000 'a')).length = 3000 := by
    show (List.replicate 3000 'a').length = 3000
    exact List.length_replicate 3000 'a'
  refine ⟨hlen, ?_⟩
  rw [updateSlackMessage, if_neg (by rw [hlen]; exact fun hc => by simp [SLACK_TEXT_LIMIT] at hc)]

/-- C4 (witness): content of 3001 characters is uploaded as a file even
when no target message exists. -/
theorem updateSlackMessage_upload_iff_above_limit_witness :
    (String.mk (List.replicate 3001 'a')).length > SLACK_TEXT_LIMIT ∧
    updateSlackMessage (String.mk (List.replicate 3001 'a')) none
      = .uploadAsFile ((String.mk (List.replicate 3001 'a')).take 500 ++
          "...\n\n_(Full response uploaded as file)_") := by
  have hlen : (String.mk (List.replicate 3001 'a')).length > SLACK_TEXT_LIMIT := by
    show (List.replicate 3001 'a').length > 3000
    rw [List.length_replicate]
    omega
  exact ⟨hlen,
    (updateSlackMessage_upload_iff_above_limit (String.mk (List.replicate 3001 'a')) none).2 hlen⟩

/-! ## AskUserQuestion handling in `canUseTool` (`sdkSession.ts`)

When the tool is `AskUserQuestion` and an `onUserQuestion` callback is
wired, the handler loops over `input.questions` sequentially, awaiting one
correlated question per sub-question, stores each answer under
`q.header || q.question`, and finally returns
`{ behavior: 'allow', updatedInput: { ...input, answers } }`; if any await
throws, the `catch` returns a denial.  The `onUserQuestion` collaborator is
modelled as an oracle from the sub-question index to `Except Unit String`
(an answer, or a thrown rejection). -/

/-- One entry of `input.questions` (fields used by the handler). -/
structure SubQuestion where
  question : String
  header : Option String
  options : List String
  deriving DecidableEq, Repr

/-- The `PermissionResult` returned by the handler for this tool: `allow`
with the aggregated answers merged into the input, or `deny`. -/
inductive CanUseToolDecision
  | allow (answers : List (String × String))
  | deny (message : String)
  deriving DecidableEq, Repr

/-- The key under which a sub-question's answer is stored:
`q.header || q.question` (JS `||`, so an empty header also falls back to
the question text). -/
def questionKey (q : SubQuestion) : String :=
  match q.header with
  | some h => if h = "" then q.question else h
  | none => q.question

/-- The sequential `for (const q of questions)` loop: ask the oracle, store
the answer under `questionKey q`, recurse; a thrown answer aborts the loop.
Returns the outcome together with the list of sub-questions actually
issued, in order. -/
def askQuestionsLoop (oracle : Nat → Except Unit String) :
    Nat → List SubQuestion → List (String × String) →
    Except Unit (List (String × String)) × List SubQuestion
  | _, [], answers => (.ok answers, [])
  | i, q :: rest, answers =>
    match oracle i with
    | .ok ans =>
      let r := askQuestionsLoop oracle (i + 1) rest (setA (questionKey q) ans answers)
      (r.1, q :: r.2)
    | .error e => (.error e, [q])

/-- The `AskUserQuestion` branch of `canUseTool` (`sdkSession.ts`). -/
def canUseToolAskUserQuestion (questions : List SubQuestion)
    (oracle : Nat → Except Unit String) : CanUseToolDecision × List SubQuestion :=
  match askQuestionsLoop oracle 0 questions [] with
  | (.ok answers, asked) => (.allow answers, asked)
  | (.error _, asked) => (.deny "User question cancelled", asked)

theorem lookupA_setA_ne {α : Type} (k k2 : String) (v : α) (l : List (String × α))
    (h : k ≠ k2) : lookupA k (setA k2 v l) = lookupA k l := by
  induction l with
  | nil =>
    simp only [setA, lookupA]
    rw [if_neg (fun he => h he.symm)]
  | cons p t ih =>
    obtain ⟨k3, v3⟩ := p
    by_cases hk : k3 = k2
    · subst hk
      simp only [setA, if_true, lookupA]
      rw [if_neg (fun he => h he.symm), if_neg (fun he => h he.symm)]
    · simp only [setA, if_neg hk, lookupA]
      by_cases hk3 : k3 = k
      · rw [if_pos hk3, if_pos hk3]
      · rw [if_neg hk3, if_neg hk3]
        exact ih

theorem askQuestionsLoop_ok (oracle : Nat → Except Unit String)
    (qs : List SubQuestion) :
    ∀ (i : Nat) (acc : List (String × String)),
      (∀ j, j < qs.length → ∃ a, oracle (i + j) = .ok a) →
      (askQuestionsLoop oracle i qs acc).2 = qs ∧
      ∃ A, (askQuestionsLoop oracle i qs acc).1 = .ok A := by
  induction qs with
  | nil => exact fun i acc _ => ⟨rfl, acc, rfl⟩
  | cons q rest ih =>
    intro i acc h
    obtain ⟨a0, ha0⟩ := h 0 (Nat.succ_pos _)
    rw [Nat.add_zero] at ha0
    have h2 : ∀ j, j < rest.length → ∃ a, oracle (i + 1 + j) = .ok a := by
      intro j hj
      have := h (j + 1) (by simpa using Nat.succ_lt_succ hj)
      rwa [show i + (j + 1) = i + 1 + j by omega] at this
    have ihr := ih (i + 1) (setA (questionKey q) a0 acc) h2
    simp only [askQuestionsLoop, ha0]
    exact ⟨by rw [ihr.1], ihr.2⟩

theorem askQuestionsLoop_untouched_key (oracle : Nat → Except Unit String)
    (qs : List SubQuestion) :
    ∀ (i : Nat) (acc : List (String × String)) (k : String),
      k ∉ qs.map questionKey →
      ∀ A, (askQuestionsLoop oracle i qs acc).1 = .ok A →
      lookupA k A = lookupA k acc := by
  induction qs with
  | nil =>
    intro i acc k _ A hA
    simp only [askQuestionsLoop] at hA
    cases hA
    rfl
  | cons q rest ih =>
    intro i acc k hk A hA
    simp only [List.map_cons, List.mem_cons] at hk
    push_neg at hk
    rcases ho : oracle i with e | a0
    · simp only [askQuestionsLoop, ho] at hA
      exact absurd hA (by simp)
    · simp only [askQuestionsLoop, ho] at hA
      rw [ih (i + 1) (setA (questionKey q) a0 acc) k hk.2 A hA]
      exact lookupA_setA_ne k (questionKey q) a0 acc hk.1

theorem askQuestionsLoop_lookup (oracle : Nat → Except Unit String)
    (qs : List SubQuestion) :
    ∀ (i : Nat) (acc : List (String × String)),
      (∀ j, j < qs.length → ∃ a, oracle (i + j) = .ok a) →
      (qs.map questionKey).Nodup →
      ∀ A, (askQuestionsLoop oracle i qs acc).1 = .ok A →
      ∀ j (hj : j < qs.length) a, oracle (i + j) = .ok a →
        lookupA (questionKey (qs.get ⟨j, hj⟩)) A = some a := by
  induction qs with
  | nil => intro i acc _ _ A _ j hj; exact absurd hj (Nat.not_lt_zero j)
  | cons q rest ih =>
    intro i acc h hnd A hA j hj a ha
    obtain ⟨a0, ha0⟩ := h 0 (Nat.succ_pos _)
    rw [Nat.add_zero] at ha0
    simp only [List.map_cons, List.nodup_cons] at hnd
    simp only [askQuestionsLoop, ha0] at hA
    match j with
    | 0 =>
      rw [Nat.add_zero] at ha
      have haa : a = a0 := by
        rw [ha0] at ha
        exact (Except.ok.injEq _ _ ▸ congrArg id ha : _) ▸ (Except.ok.inj ha).symm
      subst haa
      show lookupA (questionKey q) A = some a
      rw [askQuestionsLoop_untouched_key oracle rest (i + 1)
        (setA (questionKey q) a acc) (questionKey q) hnd.1 A hA]
      exact lookupA_setA_self (questionKey q) a acc
    | j' + 1 =>
      have h2 : ∀ j2, j2 < rest.length → ∃ a2, oracle (i + 1 + j2) = .ok a2 := by
        intro j2 hj2
        have := h (j2 + 1) (by simpa using Nat.succ_lt_succ hj2)
        rwa [show i + (j2 + 1) = i + 1 + j2 by omega] at this
      have ha2 : oracle (i + 1 + j') = .ok a := by
        rwa [show i + 1 + j' = i + (j' + 1) by omega]
      exact ih (i + 1) (setA (questionKey q) a0 acc) h2 hnd.2 A hA j'
        (Nat.lt_of_succ_lt_succ hj) a ha2

theorem askQuestionsLoop_fails (oracle : Nat → Except Unit String)
    (qs : List SubQuestion) :
    ∀ (i : Nat) (acc : List (String × String)) (k : Nat), k < qs.length →
      (∀ j, j < k → ∃ a, oracle (i + j) = .ok a) →
      oracle (i + k) = .error () →
      (askQuestionsLoop oracle i qs acc).1 = .error () ∧
      (askQuestionsLoop oracle i qs acc).2 = qs.take (k + 1) := by
  induction qs with
  | nil => intro i acc k hk; exact absurd hk (Nat.not_lt_zero k)
  | cons q rest ih =>
    intro i acc k hk h he
    match k with
    | 0 =>
      rw [Nat.add_zero] at he
      simp [askQuestionsLoop, he]
    | k' + 1 =>
      obtain ⟨a0, ha0⟩ := h 0 (Nat.succ_pos _)
      rw [Nat.add_zero] at ha0
      have h2 : ∀ j, j < k' → ∃ a, oracle (i + 1 + j) = .ok a := by
        intro j hj
        have := h (j + 1) (Nat.succ_lt_succ hj)
        rwa [show i + (j + 1) = i + 1 + j by omega] at this
      have he2 : oracle (i + 1 + k') = .error () := by
        rwa [show i + 1 + k' = i + (k' + 1) by omega]
      have ihr := ih (i + 1) (setA (questionKey q) a0 acc) k'
        (Nat.lt_of_succ_lt_succ hk) h2 he2
      simp only [askQuestionsLoop, ha0]
      exact ⟨ihr.1, by rw [List.take_succ_cons, ihr.2]⟩

/-- C7: for the multi-question `AskUserQuestion` tool, the handler issues
one question per sub-question sequentially in order; when every question
resolves, it returns a single `allow` decision whose updated input carries
the answers keyed by each question's identifier (`header`, falling back to
the question text); if any individual question fails to resolve, the whole
request is denied. -/
theorem canUseTool_askUserQuestion_aggregates (questions : List SubQuestion)
    (oracle : Nat → Except Unit String) :
    ((∀ i, i < questions.length → ∃ a, oracle i = .ok a) →
      (canUseToolAskUserQuestion questions oracle).2 = questions ∧
      ∃ A, (canUseToolAskUserQuestion questions oracle).1 = .allow A ∧
        ((questions.map questionKey).Nodup →
          ∀ j (hj : j < questions.length) a, oracle j = .ok a →
            lookupA (questionKey (questions.get ⟨j, hj⟩)) A = some a)) ∧
    (∀ k, k < questions.length →
      (∀ i, i < k → ∃ a, oracle i = .ok a) →
      oracle k = .error () →
      (canUseToolAskUserQuestion questions oracle).1
          = .deny "User question cancelled" ∧
      (canUseToolAskUserQuestion questions oracle).2 = questions.take (k + 1)) := by
  constructor
  · intro h
    have h0 : ∀ j, j < questions.length → ∃ a, oracle (0 + j) = .ok a := by
      intro j hj
      simpa using h j hj
    obtain ⟨hasked, A, hA⟩ := askQuestionsLoop_ok oracle questions 0 [] h0
    refine ⟨?_, A, ?_, ?_⟩
    · simp only [canUseToolAskUserQuestion]
      rcases hr : askQuestionsLoop oracle 0 questions [] with ⟨res, asked⟩
      rw [hr] at hA hasked
      cases res with
      | ok A2 => exact hasked
      | error e => simp at hA
    · simp only [canUseToolAskUserQuestion]
      rcases hr : askQuestionsLoop oracle 0 questions [] with ⟨res, asked⟩
      rw [hr] at hA
      cases res with
      | ok A2 => simp at hA; rw [hA]
      | error e => simp at hA
    · intro hnd j hj a ha
      exact askQuestionsLoop_lookup oracle questions 0 [] h0 hnd A hA j hj a
        (by simpa using ha)
  · intro k hk h he
    have h0 : ∀ j, j < k → ∃ a, oracle (0 + j) = .ok a := by
      intro j hj
      simpa using h j hj
    have hf := askQuestionsLoop_fails oracle questions 0 [] k hk h0 (by simpa using he)
    constructor
    · simp only [canUseToolAskUserQuestion]
      rcases hr : askQuestionsLoop oracle 0 questions [] with ⟨res, asked⟩
      rw [hr] at hf
      cases res with
      | ok A2 => simp at hf
      | error e => rfl
    · simp only [canUseToolAskUserQuestion]
      rcases hr : askQuestionsLoop oracle 0 questions [] with ⟨res, asked⟩
      rw [hr] at hf
      cases res with
      | ok A2 => simp at hf
      | error e => exact hf.2

/-- C7 (witness): two concrete sub-questions answered `Red` and `L`; both
are issued in order and the decision is `allow` with the answers keyed by
header (first question) and question text (second question, which has no
header). -/
theorem canUseTool_askUserQuestion_aggregates_witness :
    (∀ i, i < ([⟨"Which color?", some "color", ["Red", "Blue"]⟩,
                ⟨"Which size?", none, ["S", "L"]⟩] : List SubQuestion).length →
      ∃ a, (fun i => if i = 0 then Except.ok (ε := Unit) "Red" else .ok "L") i = .ok a) ∧
    (canUseToolAskUserQuestion
        [⟨"Which color?", some "color", ["Red", "Blue"]⟩,
         ⟨"Which size?", none, ["S", "L"]⟩]
        (fun i => if i = 0 then .ok "Red" else .ok "L")).2
      = [⟨"Which color?", some "color", ["Red", "Blue"]⟩,
         ⟨"Which size?", none, ["S", "L"]⟩] := by
  have hyp : ∀ i, i < ([⟨"Which color?", some "color", ["Red", "Blue"]⟩,
                ⟨"Which size?", none, ["S", "L"]⟩] : List SubQuestion).length →
      ∃ a, (fun i => if i = 0 then Except.ok (ε := Unit) "Red" else .ok "L") i = .ok a := by
    intro i _
    by_cases h : i = 0
    · exact ⟨"Red", by simp [h]⟩
    · exact ⟨"L", by simp [h]⟩
  exact ⟨hyp,
    ((canUseTool_askUserQuestion_aggregates
      [⟨"Which color?", some "color", ["Red", "Blue"]⟩,
       ⟨"Which size?", none, ["S", "L"]⟩]
      (fun i => if i = 0 then .ok "Red" else .ok "L")).1 hyp).1⟩

/-! ## Terminal-output cleaning (`sessionManager.ts`, tmux variant)

`cleanTerminalOutput` splits the captured pane text into lines, drops
banner/status/hint lines (matching on the `trim()`med line), shortens long
`─` separator runs to a fixed 24-character rule, rejoins with newlines and
`trim()`s the result.  We model strings as `List Char` (`String.data`) and
JS `trim()` with the ECMAScript white-space set. -/

/-- The ECMAScript white-space set used by `String.prototype.trim` and by
the regex class `\s`. -/
def isJsWs (c : Char) : Bool :=
  c = '\t' ∨ c = '\n' ∨ c = '\u000B' ∨ c = '\u000C' ∨ c = '\r' ∨ c = ' ' ∨
  c = '\u00A0' ∨ c = '\u1680' ∨ ('\u2000' ≤ c ∧ c ≤ '\u200A') ∨
  c = '\u2028' ∨ c = '\u2029' ∨ c = '\u202F' ∨ c = '\u205F' ∨ c = '\u3000' ∨
  c = '\uFEFF'

/-- The regex class `\d`. -/
def isDigitCh (c : Char) : Bool := '0' ≤ c ∧ c ≤ '9'

/-- Left half of JS `trim()`. -/
def trimL (l : List Char) : List Char := l.dropWhile isJsWs

/-- Right half of JS `trim()`. -/
def trimR (l : List Char) : List Char := (trimL l.reverse).reverse

/-- JS `String.prototype.trim`. -/
def jsTrim (l : List Char) : List Char := trimR (trimL l)

/-- JS `split('\n')`. -/
def splitLines : List Char → List (List Char)
  | [] => [[]]
  | c :: cs =>
    if c = '\n' then [] :: splitLines cs
    else
      match splitLines cs with
      | [] => [[c]]
      | hd :: tl => (c :: hd) :: tl

/-- JS `join('\n')`. -/
def joinLines : List (List Char) → List Char
  | [] => []
  | [l] => l
  | l :: l2 :: t => l ++ '\n' :: joinLines (l2 :: t)

/-- JS `String.prototype.includes` (substring containment). -/
def containsSeq (needle hay : List Char) : Bool :=
  hay.tails.any (fun t2 => needle.isPrefixOf t2)

/-- Suffix of the model-banner regexes after the digits: the optional
`(\.\d+)?`, then `\s*`, then the separator character (`·` or `|`). -/
def matchNumTail (sep : Char) (r : List Char) : Bool :=
  match r with
  | [] => false
  | c :: cs =>
    isDigitCh c &&
      (let r2 := List.dropWhile isDigitCh (c :: cs)
       let r3 :=
         match r2 with
         | '.' :: d :: ds =>
           if isDigitCh d then List.dropWhile isDigitCh (d :: ds) else '.' :: d :: ds
         | _ => r2
       match List.dropWhile isJsWs r3 with
       | s :: _ => s = sep
       | [] => false)

/-- The `\s+\d+(\.\d+)?\s*SEP` part of the model-banner regexes. -/
def matchWsNum (sep : Char) (rest : List Char) : Bool :=
  match rest with
  | [] => false
  | c :: cs => isJsWs c && matchNumTail sep (List.dropWhile isJsWs (c :: cs))

/-- The anchored regex `^(Opus|Sonnet|Haiku)\s+\d+(\.\d+)?\s*SEP` used for
the model banner (`SEP` = `·`) and the status bar (`SEP` = `|`). -/
def matchModelLine (sep : Char) (t : List Char) : Bool :=
  (List.isPrefixOf "Opus".data t && matchWsNum sep (t.drop 4)) ||
  (List.isPrefixOf "Sonnet".data t && matchWsNum sep (t.drop 6)) ||
  (List.isPrefixOf "Haiku".data t && matchWsNum sep (t.drop 5))

/-- The regex `^─{10,}$`. -/
def isLongSeparator (t : List Char) : Bool :=
  decide (10 ≤ t.length) && t.all (fun c => c = '─')

/-- The fixed-width replacement pushed for long separator lines
(24 `─` characters). -/
def sepReplacement : List Char := List.replicate 24 '─'

/-- The chain of `continue` guards of `cleanTerminalOutput`, evaluated on
the trimmed line, in source order. -/
def skipLine (t : List Char) : Bool :=
  containsSeq "▐▛".data t || containsSeq "▝▜".data t || containsSeq "▘▘".data t ||
  containsSeq "Claude Code v".data t ||
  matchModelLine '·' t ||
  matchModelLine '|' t ||
  (t.head? = some '⏸') || (t.head? = some '▶') ||
  containsSeq "/ide for".data t

/-- One iteration of the `for (const line of lines)` loop of
`cleanTerminalOutput`: `none` when the line is skipped, otherwise the line
pushed (the fixed separator replacement, or the original line). -/
def cleanLine (line : List Char) : Option (List Char) :=
  let t := jsTrim line
  if skipLine t then none
  else if isLongSeparator t then some sepReplacement
  else some line

/-- `cleanTerminalOutput` on character lists. -/
def cleanTerminalOutputL (s : List Char) : List Char :=
  jsTrim (joinLines ((splitLines s).filterMap cleanLine))

/-- `cleanTerminalOutput` (`sessionManager.ts`). -/
def cleanTerminalOutput (s : String) : String :=
  String.mk (cleanTerminalOutputL s.data)

example : cleanTerminalOutput "▐▛ some logo\nactual content" = "actual content" := by decide
example : cleanTerminalOutput "Claude Code v1.0.0\nactual content" = "actual content" := by
  decide
example : cleanTerminalOutput "Opus 4.5 · Ready\nactual content" = "actual content" := by decide
example : cleanTerminalOutput "Hello\nWorld\nTest" = "Hello\nWorld\nTest" := by decide
example : cleanTerminalOutput "\n\nactual content\n\n" = "actual content" := by decide
example : cleanTerminalOutput (String.mk (List.replicate 50 '─'))
    = String.mk (List.replicate 24 '─') := by decide
example : cleanTerminalOutput (String.mk (List.replicate 5 '─'))
    = String.mk (List.replicate 5 '─') := by decide

/-! ### Split/join/trim infrastructure lemmas -/

theorem splitLines_cons_newline (x : List Char) :
    splitLines ('\n' :: x) = [] :: splitLines x := by
  simp [splitLines]

theorem splitLines_ne_nil (x : List Char) : splitLines x ≠ [] := by
  cases x with
  | nil => simp [splitLines]
  | cons c cs =>
    by_cases h : c = '\n'
    · simp [splitLines, h]
    · simp only [splitLines, if_neg h]
      rcases splitLines cs with _ | ⟨hd, tl⟩ <;> simp

theorem splitLines_cons_other (c : Char) (x : List Char) (h : ¬ c = '\n')
    (hd : List Char) (tl : List (List Char)) (hs : splitLines x = hd :: tl) :
    splitLines (c :: x) = (c :: hd) :: tl := by
  simp [splitLines, h, hs]

theorem noNewline_splitLines (x : List Char) :
    ∀ l ∈ splitLines x, '\n' ∉ l := by
  induction x with
  | nil =>
    intro l hl
    simp only [splitLines, List.mem_singleton] at hl
    simp [hl]
  | cons c cs ih =>
    by_cases h : c = '\n'
    · subst h
      rw [splitLines_cons_newline]
      intro l hl
      rcases List.mem_cons.mp hl with hl | hl
      · simp [hl]
      · exact ih l hl
    · rcases hsp : splitLines cs with _ | ⟨hd, tl⟩
      · exact absurd hsp (splitLines_ne_nil cs)
      · rw [splitLines_cons_other c cs h hd tl hsp]
        intro l hl
        rcases List.mem_cons.mp hl with hl | hl
        · subst hl
          simp only [List.mem_cons]
          push_neg
          exact ⟨fun he => h he.symm, ih hd (hsp ▸ List.mem_cons_self hd tl)⟩
        · exact ih l (hsp ▸ List.mem_cons_of_mem hd hl)

theorem splitLines_of_noNewline (l : List Char) (h : '\n' ∉ l) :
    splitLines l = [l] := by
  induction l with
  | nil => rfl
  | cons c cs ih =>
    simp only [List.mem_cons] at h
    push_neg at h
    exact splitLines_cons_other c cs (fun he => h.1 he.symm) cs []
      (ih h.2)

theorem splitLines_append_newline (l r : List Char) (h : '\n' ∉ l) :
    splitLines (l ++ '\n' :: r) = l :: splitLines r := by
  induction l with
  | nil => exact splitLines_cons_newline r
  | cons c cs ih =>
    simp only [List.mem_cons] at h
    push_neg at h
    rcases hsp : splitLines r with _ | ⟨hd, tl⟩
    · exact absurd hsp (splitLines_ne_nil r)
    · rw [List.cons_append]
      rw [splitLines_cons_other c (cs ++ '\n' :: r) (fun he => h.1 he.symm) cs
        (splitLines r) (ih h.2)]
      rw [hsp]

theorem splitLines_joinLines (ls : List (List Char)) (hne : ls ≠ [])
    (h : ∀ l ∈ ls, '\n' ∉ l) : splitLines (joinLines ls) = ls := by
  induction ls with
  | nil => exact absurd rfl hne
  | cons l t ih =>
    cases t with
    | nil =>
      show splitLines (joinLines [l]) = [l]
      exact splitLines_of_noNewline l (h l (List.mem_cons_self l []))
    | cons l2 t2 =>
      show splitLines (l ++ '\n' :: joinLines (l2 :: t2)) = l :: l2 :: t2
      rw [splitLines_append_newline l (joinLines (l2 :: t2))
        (h l (List.mem_cons_self l _))]
      rw [ih (by simp) (fun m hm => h m (List.mem_cons_of_mem l hm))]

theorem joinLines_cons_ne (a : List Char) (ls : List (List Char)) (h : ls ≠ []) :
    joinLines (a :: ls) = a ++ '\n' :: joinLines ls := by
  cases ls with
  | nil => exact absurd rfl h
  | cons b t => rfl

theorem joinLines_cons_head (c : Char) (l : List Char) (ls : List (List Char)) :
    joinLines ((c :: l) :: ls) = c :: joinLines (l :: ls) := by
  cases ls with
  | nil => rfl
  | cons b t => rfl

theorem joinLines_snoc_nil (m : List (List Char)) (hne : m ≠ []) :
    joinLines (m ++ [[]]) = joinLines m ++ ['\n'] := by
  induction m with
  | nil => exact absurd rfl hne
  | cons a m2 ih =>
    cases m2 with
    | nil => rfl
    | cons b t =>
      rw [List.cons_append, joinLines_cons_ne a ((b :: t) ++ [[]]) (by simp),
        ih (by simp), joinLines_cons_ne a (b :: t) (by simp)]
      simp

theorem joinLines_snoc_snoc (m : List (List Char)) (l : List Char) (c : Char) :
    joinLines (m ++ [l ++ [c]]) = joinLines (m ++ [l]) ++ [c] := by
  induction m with
  | nil => rfl
  | cons a m2 ih =>
    rw [List.cons_append, List.cons_append,
      joinLines_cons_ne a (m2 ++ [l ++ [c]]) (by simp),
      joinLines_cons_ne a (m2 ++ [l]) (by simp), ih]
    simp

/-- `modifyLast`: apply `f` to the last element of a list of lines. -/
def modLast (f : List Char → List Char) : List (List Char) → List (List Char)
  | [] => []
  | [a] => [f a]
  | a :: b :: t => a :: modLast f (b :: t)

theorem modLast_cons_ne (f : List Char → List Char) (a : List Char)
    (ls : List (List Char)) (h : ls ≠ []) :
    modLast f (a :: ls) = a :: modLast f ls := by
  cases ls with
  | nil => exact absurd rfl h
  | cons b t => rfl

theorem splitLines_snoc_newline (x : List Char) :
    splitLines (x ++ ['\n']) = splitLines x ++ [[]] := by
  induction x with
  | nil => rfl
  | cons c cs ih =>
    by_cases h : c = '\n'
    · subst h
      rw [List.cons_append, splitLines_cons_newline, splitLines_cons_newline, ih]
      rfl
    · rcases hsp : splitLines cs with _ | ⟨hd, tl⟩
      · exact absurd hsp (splitLines_ne_nil cs)
      · rw [List.cons_append,
          splitLines_cons_other c (cs ++ ['\n']) h hd (tl ++ [[]]) (by rw [ih, hsp]; rfl),
          splitLines_cons_other c cs h hd tl hsp]
        rfl

theorem splitLines_snoc_other (x : List Char) (c : Char) (h : ¬ c = '\n') :
    splitLines (x ++ [c]) = modLast (· ++ [c]) (splitLines x) := by
  induction x with
  | nil =>
    show splitLines [c] = [[c]]
    exact splitLines_of_noNewline [c] (by simp [fun he : '\n' = c => h he.symm]; exact fun he => h he.symm)
  | cons a cs ih =>
    by_cases ha : a = '\n'
    · subst ha
      rw [List.cons_append, splitLines_cons_newline, splitLines_cons_newline, ih,
        modLast_cons_ne _ [] (splitLines cs) (splitLines_ne_nil cs)]
    · rcases hsp : splitLines cs with _ | ⟨hd, tl⟩
      · exact absurd hsp (splitLines_ne_nil cs)
      · cases tl with
        | nil =>
          rw [List.cons_append,
            splitLines_cons_other a (cs ++ [c]) ha (hd ++ [c]) []
              (by rw [ih, hsp]; rfl),
            splitLines_cons_other a cs ha hd [] hsp]
          rfl
        | cons t1 ts =>
          rw [List.cons_append,
            splitLines_cons_other a (cs ++ [c]) ha hd (modLast (· ++ [c]) (t1 :: ts))
              (by rw [ih, hsp, modLast_cons_ne _ hd (t1 :: ts) (by simp)]),
            splitLines_cons_other a cs ha hd (t1 :: ts) hsp,
            modLast_cons_ne _ (a :: hd) (t1 :: ts) (by simp)]

theorem trimL_cons_ws (c : Char) (l : List Char) (h : isJsWs c = true) :
    trimL (c :: l) = trimL l := by
  simp [trimL, List.dropWhile_cons, h]

theorem trimL_cons_not_ws (c : Char) (l : List Char) (h : isJsWs c = false) :
    trimL (c :: l) = c :: l := by
  simp [trimL, List.dropWhile_cons, h]

theorem jsTrim_cons_ws (c : Char) (l : List Char) (h : isJsWs c = true) :
    jsTrim (c :: l) = jsTrim l := by
  simp only [jsTrim, trimL_cons_ws c l h]

theorem trimL_append (xs ys : List Char) :
    trimL (xs ++ ys) = if trimL xs = [] then trimL ys else trimL xs ++ ys := by
  induction xs with
  | nil => simp [trimL]
  | cons c xs2 ih =>
    cases hw : isJsWs c with
    | true =>
      rw [List.cons_append, trimL_cons_ws c _ hw, trimL_cons_ws c _ hw, ih]
    | false =>
      rw [List.cons_append, trimL_cons_not_ws c _ hw, trimL_cons_not_ws c _ hw]
      rw [if_neg (by simp)]
      rfl

theorem jsTrim_snoc_ws (l : List Char) (c : Char) (h : isJsWs c = true) :
    jsTrim (l ++ [c]) = jsTrim l := by
  by_cases hz : trimL l = []
  · have h1 : trimL (l ++ [c]) = [] := by
      rw [trimL_append, if_pos hz]
      show trimL (c :: []) = []
      rw [trimL_cons_ws c [] h]
      rfl
    rw [jsTrim, jsTrim, h1, hz]
  · rw [jsTrim, jsTrim, trimL_append, if_neg hz]
    show trimR (trimL l ++ [c]) = trimR (trimL l)
    rw [trimR, trimR, List.reverse_append]
    show (trimL (c :: (trimL l).reverse)).reverse = (trimL (trimL l).reverse).reverse
    rw [trimL_cons_ws c _ h]

theorem modLast_concat (f : List Char → List Char) (m : List (List Char))
    (a : List Char) : modLast f (m ++ [a]) = m ++ [f a] := by
  induction m with
  | nil => rfl
  | cons b m2 ih =>
    rw [List.cons_append, modLast_cons_ne f b (m2 ++ [a]) (by simp), ih]
    rfl

/-! ### `cleanLine` branch lemmas -/

theorem cleanLine_nil : cleanLine [] = some [] := by decide

theorem cleanLine_sepReplacement : cleanLine sepReplacement = some sepReplacement := by
  decide

theorem cleanLine_skip (l : List Char) (h : skipLine (jsTrim l) = true) :
    cleanLine l = none := by
  unfold cleanLine
  rw [if_pos h]

theorem cleanLine_sep (l : List Char) (h1 : skipLine (jsTrim l) = false)
    (h2 : isLongSeparator (jsTrim l) = true) :
    cleanLine l = some sepReplacement := by
  unfold cleanLine
  rw [if_neg (by simp [h1]), if_pos h2]

theorem cleanLine_keep (l : List Char) (h1 : skipLine (jsTrim l) = false)
    (h2 : isLongSeparator (jsTrim l) = false) :
    cleanLine l = some l := by
  unfold cleanLine
  rw [if_neg (by simp [h1]), if_neg (by simp [h2])]

theorem cleanLine_fix (l r : List Char) (h : cleanLine l = some r) :
    cleanLine r = some r := by
  unfold cleanLine at h
  by_cases h1 : skipLine (jsTrim l) = true
  · rw [if_pos h1] at h
    exact absurd h (by simp)
  · rw [if_neg h1] at h
    by_cases h2 : isLongSeparator (jsTrim l) = true
    · rw [if_pos h2] at h
      have hr : r = sepReplacement := by
        injection h with h
        exact h.symm
      subst hr
      exact cleanLine_sepReplacement
    · rw [if_neg h2] at h
      have hr : r = l := by
        injection h with h
        exact h.symm
      subst hr
      unfold cleanLine
      rw [if_neg h1, if_neg h2]

theorem cleanLine_noNewline (l r : List Char) (h : cleanLine l = some r)
    (hl : '\n' ∉ l) : '\n' ∉ r := by
  unfold cleanLine at h
  by_cases h1 : skipLine (jsTrim l) = true
  · rw [if_pos h1] at h
    exact absurd h (by simp)
  · rw [if_neg h1] at h
    by_cases h2 : isLongSeparator (jsTrim l) = true
    · rw [if_pos h2] at h
      have hr : r = sepReplacement := by
        injection h with h
        exact h.symm
      subst hr
      decide
    · rw [if_neg h2] at h
      have hr : r = l := by
        injection h with h
        exact h.symm
      subst hr
      exact hl

/-! ### The trim/clean commutation lemmas -/

/-- The line-processing core of `cleanTerminalOutput` before the final
`trim()`. -/
def rejoin (s : List Char) : List Char :=
  joinLines ((splitLines s).filterMap cleanLine)

theorem cleanTerminalOutputL_eq_rejoin (x : List Char) :
    cleanTerminalOutputL x = jsTrim (rejoin x) := rfl

theorem rejoin_cons_ws (c : Char) (x : List Char) (h : isJsWs c = true) :
    jsTrim (rejoin (c :: x)) = jsTrim (rejoin x) := by
  by_cases hn : c = '\n'
  · subst hn
    unfold rejoin
    rw [splitLines_cons_newline, List.filterMap_cons, cleanLine_nil]
    cases hp : (splitLines x).filterMap cleanLine with
    | nil => rfl
    | cons m ms =>
      rw [joinLines_cons_ne [] (m :: ms) (by simp), List.nil_append]
      exact jsTrim_cons_ws '\n' _ (by decide)
  · rcases hsp : splitLines x with _ | ⟨hd, tl⟩
    · exact absurd hsp (splitLines_ne_nil x)
    · unfold rejoin
      rw [splitLines_cons_other c x hn hd tl hsp, hsp, List.filterMap_cons,
        List.filterMap_cons]
      have htr : jsTrim (c :: hd) = jsTrim hd := jsTrim_cons_ws c hd h
      by_cases h1 : skipLine (jsTrim hd) = true
      · rw [cleanLine_skip hd h1, cleanLine_skip (c :: hd) (by rw [htr]; exact h1)]
      · have h1f : skipLine (jsTrim hd) = false := by simpa using h1
        by_cases h2 : isLongSeparator (jsTrim hd) = true
        · rw [cleanLine_sep hd h1f h2,
            cleanLine_sep (c :: hd) (by rw [htr]; exact h1f) (by rw [htr]; exact h2)]
        · have h2f : isLongSeparator (jsTrim hd) = false := by simpa using h2
          rw [cleanLine_keep hd h1f h2f,
            cleanLine_keep (c :: hd) (by rw [htr]; exact h1f) (by rw [htr]; exact h2f),
            joinLines_cons_head]
          exact jsTrim_cons_ws c _ h

theorem rejoin_snoc_ws (x : List Char) (c : Char) (h : isJsWs c = true) :
    jsTrim (rejoin (x ++ [c])) = jsTrim (rejoin x) := by
  by_cases hn : c = '\n'
  · subst hn
    unfold rejoin
    rw [splitLines_snoc_newline, List.filterMap_append]
    have : List.filterMap cleanLine [[]] = [[]] := by
      rw [List.filterMap_cons, cleanLine_nil]
      rfl
    rw [this]
    cases hp : (splitLines x).filterMap cleanLine with
    | nil => rfl
    | cons m ms =>
      rw [joinLines_snoc_nil (m :: ms) (by simp)]
      exact jsTrim_snoc_ws _ '\n' (by decide)
  · rcases List.eq_nil_or_concat (splitLines x) with hS | ⟨init, last, hS⟩
    · exact absurd hS (splitLines_ne_nil x)
    · rw [List.concat_eq_append] at hS
      unfold rejoin
      rw [splitLines_snoc_other x c hn, hS, modLast_concat, List.filterMap_append,
        List.filterMap_append, List.filterMap_cons, List.filterMap_cons,
        List.filterMap_nil]
      have htr : jsTrim (last ++ [c]) = jsTrim last := jsTrim_snoc_ws last c h
      by_cases h1 : skipLine (jsTrim last) = true
      · rw [cleanLine_skip last h1, cleanLine_skip (last ++ [c]) (by rw [htr]; exact h1)]
      · have h1f : skipLine (jsTrim last) = false := by simpa using h1
        by_cases h2 : isLongSeparator (jsTrim last) = true
        · rw [cleanLine_sep last h1f h2,
            cleanLine_sep (last ++ [c]) (by rw [htr]; exact h1f) (by rw [htr]; exact h2)]
        · have h2f : isLongSeparator (jsTrim last) = false := by simpa using h2
          rw [cleanLine_keep last h1f h2f,
            cleanLine_keep (last ++ [c]) (by rw [htr]; exact h1f) (by rw [htr]; exact h2f),
            joinLines_snoc_snoc]
          exact jsTrim_snoc_ws _ c h

theorem rejoin_trimL (x : List Char) :
    jsTrim (rejoin (trimL x)) = jsTrim (rejoin x) := by
  induction x with
  | nil => rfl
  | cons c x2 ih =>
    cases hw : isJsWs c with
    | true =>
      rw [trimL_cons_ws c x2 hw, ih]
      exact (rejoin_cons_ws c x2 hw).symm
    | false => rw [trimL_cons_not_ws c x2 hw]

theorem rejoin_trimR (x : List Char) :
    jsTrim (rejoin (trimR x)) = jsTrim (rejoin x) := by
  induction x using List.reverseRecOn with
  | nil => rfl
  | append_singleton x2 c ih =>
    cases hw : isJsWs c with
    | true =>
      have htr : trimR (x2 ++ [c]) = trimR x2 := by
        rw [trimR, List.reverse_append]
        show (trimL (c :: x2.reverse)).reverse = _
        rw [trimL_cons_ws c _ hw]
        rfl
      rw [htr, ih]
      exact (rejoin_snoc_ws x2 c hw).symm
    | false =>
      have htr : trimR (x2 ++ [c]) = x2 ++ [c] := by
        rw [trimR, List.reverse_append]
        show (trimL (c :: x2.reverse)).reverse = _
        rw [trimL_cons_not_ws c _ hw]
        simp
      rw [htr]

theorem rejoin_jsTrim (x : List Char) :
    jsTrim (rejoin (jsTrim x)) = jsTrim (rejoin x) := by
  show jsTrim (rejoin (trimR (trimL x))) = _
  rw [rejoin_trimR (trimL x), rejoin_trimL x]

/-! ### Idempotence of the line pass and the final theorem -/

theorem filterMap_cleanLine_idem (ls : List (List Char)) :
    (ls.filterMap cleanLine).filterMap cleanLine = ls.filterMap cleanLine := by
  induction ls with
  | nil => rfl
  | cons l t ih =>
    rcases hc : cleanLine l with _ | r
    · simp only [List.filterMap_cons, hc, ih]
    · simp only [List.filterMap_cons, hc, cleanLine_fix l r hc, ih]

theorem noNewline_rejoin_parts (x : List Char) :
    ∀ l ∈ (splitLines x).filterMap cleanLine, '\n' ∉ l := by
  intro l hl
  rcases List.mem_filterMap.mp hl with ⟨m, hm, hcm⟩
  exact cleanLine_noNewline m l hcm (noNewline_splitLines x m hm)

theorem rejoin_rejoin (s : List Char) : rejoin (rejoin s) = rejoin s := by
  cases hp : (splitLines s).filterMap cleanLine with
  | nil =>
    show rejoin (joinLines ((splitLines s).filterMap cleanLine)) = _
    rw [hp]
    show rejoin [] = joinLines ((splitLines s).filterMap cleanLine)
    rw [hp]
    rfl
  | cons m ms =>
    show rejoin (joinLines ((splitLines s).filterMap cleanLine)) =
      joinLines ((splitLines s).filterMap cleanLine)
    rw [hp]
    unfold rejoin
    rw [splitLines_joinLines (m :: ms) (by simp)
      (fun l hl => noNewline_rejoin_parts s l (hp ▸ hl))]
    have := filterMap_cleanLine_idem (splitLines s)
    rw [hp] at this
    rw [this]

theorem cleanTerminalOutputL_idem (x : List Char) :
    cleanTerminalOutputL (cleanTerminalOutputL x) = cleanTerminalOutputL x := by
  rw [cleanTerminalOutputL_eq_rejoin, cleanTerminalOutputL_eq_rejoin,
    rejoin_jsTrim (rejoin x), rejoin_rejoin x]

/-- C9: `cleanTerminalOutput` is a pure function of its input (it is a plain
function of the snapshot text in this embedding) and is idempotent: applying
it twice yields exactly the result of applying it once. -/
theorem cleanTerminalOutput_idempotent (s : String) :
    cleanTerminalOutput (cleanTerminalOutput s) = cleanTerminalOutput s := by
  show String.mk (cleanTerminalOutputL (String.mk (cleanTerminalOutputL s.data)).data)
      = String.mk (cleanTerminalOutputL s.data)
  exact congrArg String.mk (cleanTerminalOutputL_idem s.data)

/-! ## `stripAnsi` (`sessionManager.ts`)

`stripAnsi` is the global replacement with `''` of the regex
`[\u001b\u009b][[()#;?]*([0-9]{1,4}(;[0-9]{0,4})*)?[0-9A-ORZcf-nqry=><]`.
We implement the match search with JS backtracking priority: the scanner
tries a match at each position from the left; the `*`/`{m,n}`/`?` pieces
are enumerated greedily (longest first), falling back on failure; the
candidates are consumed-length lists in priority order. -/

def isEscChar (c : Char) : Bool := c = '\u001B' ∨ c = '\u009B'

def isIntroChar (c : Char) : Bool :=
  c = '[' ∨ c = '(' ∨ c = ')' ∨ c = '#' ∨ c = ';' ∨ c = '?'

def isFinalChar (c : Char) : Bool :=
  isDigitCh c ∨ ('A' ≤ c ∧ c ≤ 'O') ∨ c = 'R' ∨ c = 'Z' ∨ c = 'c' ∨
  ('f' ≤ c ∧ c ≤ 'n') ∨ c = 'q' ∨ c = 'r' ∨ c = 'y' ∨ c = '=' ∨ c = '>' ∨ c = '<'

/-- Backtracking candidates (consumed lengths, priority order) for the
fragment `(;[0-9]{0,4})*`: take another iteration first (with the longest
digit run first), zero iterations last.  `fuel` only bounds the recursion;
every iteration consumes at least the `;`, so `fuel = cs.length` at the
entry point keeps `fuel` at least the remaining length throughout. -/
def semiStarCandsF : Nat → List Char → List Nat
  | 0, _ => [0]
  | _, [] => [0]
  | fuel + 1, c :: cs =>
    if c = ';' then
      ((List.range (min 4 ((cs.takeWhile isDigitCh).length) + 1)).reverse.flatMap
        (fun t => (semiStarCandsF fuel (cs.drop t)).map (fun s2 => 1 + t + s2))) ++ [0]
    else [0]

def semiStarCands (cs : List Char) : List Nat := semiStarCandsF cs.length cs

/-- Backtracking candidates for the optional `([0-9]{1,4}(;[0-9]{0,4})*)?`:
the group greedily first (longest digit run first, then the star's
candidates), the empty alternative last. -/
def numPartCands (cs : List Char) : List Nat :=
  ((List.range (min 4 ((cs.takeWhile isDigitCh).length))).reverse.flatMap
    (fun i =>
      let d := i + 1
      (semiStarCands (cs.drop d)).map (fun s2 => d + s2))) ++ [0]

/-- Length consumed after the introducing `ESC`/`CSI` character by the
regex match at this position (`none` when there is no match): the
`[[()#;?]*` run greedy-first, then the numeric part, then exactly one
final character. -/
def ansiMatchLen (cs : List Char) : Option Nat :=
  (List.range ((cs.takeWhile isIntroChar).length + 1)).reverse.findSome?
    (fun a =>
      let rest := cs.drop a
      (numPartCands rest).findSome? (fun b =>
        match (rest.drop b).head? with
        | some f => if isFinalChar f then some (a + b + 1) else none
        | none => none))

/-- Scanner loop of `stripAnsi`: leftmost non-overlapping matches are
removed; every match starts at an `ESC`/`CSI` character.  `fuel` only
bounds the recursion; every step consumes at least one character, so
`fuel = l.length` at the entry point keeps `fuel` at least the remaining
length throughout, and the `fuel = 0` arm is never reached with a
non-empty list. -/
def stripAnsiF : Nat → List Char → List Char
  | _, [] => []
  | 0, l => l
  | fuel + 1, c :: cs =>
    if isEscChar c then
      match ansiMatchLen cs with
      | some n => stripAnsiF fuel (cs.drop n)
      | none => c :: stripAnsiF fuel cs
    else c :: stripAnsiF fuel cs

/-- `stripAnsi` on character lists. -/
def stripAnsiL (l : List Char) : List Char := stripAnsiF l.length l

/-- `stripAnsi` (`sessionManager.ts`). -/
def stripAnsi (s : String) : String := String.mk (stripAnsiL s.data)

example : stripAnsi "\x1b[31mred\x1b[0m" = "red" := by decide
example : stripAnsi "\x1b[1m\x1b[32mbold green\x1b[0m normal" = "bold green normal" := by
  decide
example : stripAnsi "\x1b[2J\x1b[Htext" = "text" := by decide
example : stripAnsi "plain text" = "plain text" := by decide
example : stripAnsi "" = "" := by decide

/-! ## `updateSlack` (`sessionManager.ts`, tmux variant) -/

/-- `config.messageRotationMs` default (60 s). -/
def messageRotationMs : Nat := 60000

/-- `config.maxMessageLength` default. -/
def maxMessageLength : Nat := 2500

/-- `displayText.replace(/\x60\x60\x60/g, ...)`: defuse triple-backtick
runs by interleaving spaces so the surrounding fenced block survives. -/
def escapeTriple : List Char → List Char
  | '`' :: '`' :: '`' :: rest =>
    '`' :: ' ' :: '`' :: ' ' :: '`' :: escapeTriple rest
  | c :: rest => c :: escapeTriple rest
  | [] => []

/-- The per-channel render state of a tmux session object: current Slack
message handle and the block start time. -/
structure TmuxRender where
  slackTs : Option String
  msgStartTime : Nat
  deriving DecidableEq, Repr

/-- What one `updateSlack` call does on the chat surface. -/
inductive TmuxAction
  | noUpdate
  | post (text : List Char)
  | refresh (ts : String) (text : List Char)
  deriving DecidableEq, Repr

/-- `updateSlack` (`sessionManager.ts`): strip ANSI codes; return without
any action if the result trims to blank; rotate (null the target) when the
block is older than `messageRotationMs`; clean the terminal output, keep
the last `maxMessageLength` characters (prefixed `...`) when longer,
defuse backticks; then post a new message (recording its handle and the
current time) or update the existing target in place. -/
def updateSlack (st : TmuxRender) (raw : List Char) (now : Nat) (newTs : String) :
    TmuxRender × TmuxAction :=
  let clean := stripAnsiL raw
  if jsTrim clean = [] then (st, .noUpdate)
  else
    let ts0 : Option String :=
      match st.slackTs with
      | some t => if messageRotationMs < now - st.msgStartTime then none else some t
      | none => none
    let cleaned := cleanTerminalOutputL clean
    let displayText :=
      if maxMessageLength < cleaned.length then
        "...".data ++ cleaned.drop (cleaned.length - maxMessageLength)
      else cleaned
    let display := escapeTriple displayText
    match ts0 with
    | none => ({ slackTs := some newTs, msgStartTime := now }, .post display)
    | some t => (st, .refresh t display)

/-- C6 (amended): provided the raw snapshot does not strip to blank (a
blank snapshot returns early with no action at all), an update attempted at
`t0 + messageRotationMs + 1` against a target created at `t0` always nulls
the target and posts a new message — recording the fresh handle and time —
and never updates the existing target in place, regardless of the
content. -/
theorem updateSlack_rotates_after_threshold (st : TmuxRender) (raw : List Char)
    (t0 : Nat) (ts newTs : String)
    (hts : st.slackTs = some ts) (ht0 : st.msgStartTime = t0)
    (hnb : jsTrim (stripAnsiL raw) ≠ []) :
    (updateSlack st raw (t0 + messageRotationMs + 1) newTs).1
        = ⟨some newTs, t0 + messageRotationMs + 1⟩ ∧
    ∃ d, (updateSlack st raw (t0 + messageRotationMs + 1) newTs).2 = .post d := by
  have hrot : messageRotationMs < (t0 + messageRotationMs + 1) - st.msgStartTime := by
    rw [ht0]
    omega
  unfold updateSlack
  rw [if_neg hnb]
  simp only [hts, if_pos hrot]
  exact ⟨trivial, _, rfl⟩

/-- C6 (counterexample): the claim quantifies over every content
("regardless of the content's length"), but a snapshot that strips to
blank — here a single space — returns early: at `t0 + threshold + 1` the
target is *not* nulled (it stays `"123"`) and no new message is created. -/
theorem updateSlack_blank_content_cex :
    updateSlack ⟨some "123", 0⟩ [' '] 60001 "999"
      = (⟨some "123", 0⟩, .noUpdate) := by decide

/-- C6 (witness): non-blank content `hello` with a target created at
`t0 = 5`: the update at `t0 + 60001` installs a fresh target handle. -/
theorem updateSlack_rotates_after_threshold_witness :
    (⟨some "123", 5⟩ : TmuxRender).slackTs = some "123" ∧
    jsTrim (stripAnsiL "hello".data) ≠ [] ∧
    (updateSlack ⟨some "123", 5⟩ "hello".data (5 + messageRotationMs + 1) "999").1
      = ⟨some "999", 5 + messageRotationMs + 1⟩ := by
  have h := updateSlack_rotates_after_threshold ⟨some "123", 5⟩ "hello".data 5 "123" "999"
    rfl rfl (by decide)
  exact ⟨rfl, by decide, h.1⟩

end Bridge
